import Mathlib

/-!
Shallow embedding of `src/utils/svgUtils.js` (SVG attribute extraction
utilities) and proofs about its specified behavior.

Modelling conventions:
* DOM element nodes become the inductive `Element` (tag name, attribute
  list, children).  `getAttribute`, `getElementsByTagName` and the
  document-level `getElementById` are modelled on that tree; the owning
  document is passed explicitly as the root element.
* JavaScript strings become `String`; the host string operations used by
  the source (`trim`, `split(/\s+/)`, `split(",")`, `startsWith`,
  `replace`, `toLowerCase`) are modelled character-exactly below.
* JavaScript numbers become `JsNum` (`nan`, signed infinity, or an exact
  rational).  `Number(string)` coercion and `parseFloat` are modelled on
  the decimal / hex / octal / binary string-numeric-literal grammar with
  exact rational arithmetic; IEEE-754 rounding of the resulting value is
  not modelled (no claim depends on rounding).
-/

/-- The whitespace class used by JS `trim` and the regexp `\s` (ASCII part;
Unicode space characters do not occur in any input considered here). -/
def isJsWs (c : Char) : Bool :=
  c = ' ' || c = '\t' || c = '\n' || c = '\r' || c = Char.ofNat 11 || c = Char.ofNat 12

/-- JS `String.prototype.trim`. -/
def jsTrim (s : String) : String :=
  String.mk (((s.data.dropWhile isJsWs).reverse.dropWhile isJsWs).reverse)

/-- Splitting a character list at every occurrence of a separator
character; the semantics of JS `split` with a one-character string
separator (`"".split(sep) = [""]`, separators at the ends produce empty
pieces). -/
def splitOnChar (sep : Char) : List Char → List (List Char)
  | [] => [[]]
  | c :: cs =>
    if c = sep then [] :: splitOnChar sep cs
    else
      match splitOnChar sep cs with
      | [] => [[c]]
      | t :: ts => (c :: t) :: ts

/-- JS `s.split(sep)` for a one-character separator string. -/
def jsSplitStr (sep : Char) (s : String) : List String :=
  (splitOnChar sep s.data).map String.mk

/-- Core of JS `s.split(/\s+/)`: a maximal whitespace run ends the pending
token; a run at the start or end of the string produces an empty token;
the empty string yields `[""]`. -/
def jsSplitWsCore : List Char → List Char → List (List Char)
  | [], acc => [acc.reverse]
  | c :: rest, acc =>
    if isJsWs c then
      match rest with
      | [] => [acc.reverse, []]
      | d :: rest' =>
        if isJsWs d then jsSplitWsCore (d :: rest') acc
        else acc.reverse :: jsSplitWsCore (d :: rest') []
    else jsSplitWsCore rest (c :: acc)

/-- JS `s.split(/\s+/)`. -/
def jsSplitWs (s : String) : List String :=
  (jsSplitWsCore s.data []).map String.mk

/-- JS `String.prototype.startsWith`. -/
def jsStartsWith (s pre : String) : Bool :=
  pre.data.isPrefixOf s.data

/-- JS `String.prototype.toLowerCase` (ASCII range, which covers every
tag-name character that occurs in SVG). -/
def jsToLower (s : String) : String :=
  String.mk (s.data.map Char.toLower)

/-- Remove the first occurrence of `pat` from a character list (no change
when `pat` does not occur). -/
def removeFirstAux (pat : List Char) : List Char → List Char
  | [] => []
  | c :: cs =>
    if pat.isPrefixOf (c :: cs) then (c :: cs).drop pat.length
    else c :: removeFirstAux pat cs

/-- JS `s.replace(pat, "")` with a plain string pattern: only the first
occurrence is removed. -/
def jsReplaceOnce (s pat : String) : String :=
  String.mk (removeFirstAux pat.data s.data)

/-! ## The JS number model -/

/-- A JavaScript number as far as this module observes it: the NaN
sentinel, a signed infinity, or an exact rational value. -/
inductive JsNum where
  | nan
  | inf (neg : Bool)
  | val (q : ℚ)
  deriving DecidableEq

def digitVal (c : Char) : Nat := c.toNat - 48

def digitsToNat (ds : List Char) : Nat :=
  ds.foldl (fun n c => 10 * n + digitVal c) 0

def isHexDigit (c : Char) : Bool :=
  c.isDigit || ('a' ≤ c && c ≤ 'f') || ('A' ≤ c && c ≤ 'F')

def hexDigitVal (c : Char) : Nat :=
  if c.isDigit then digitVal c
  else if 'a' ≤ c && c ≤ 'f' then c.toNat - 87
  else c.toNat - 55

def hexToNat (ds : List Char) : Nat :=
  ds.foldl (fun n c => 16 * n + hexDigitVal c) 0

def isOctDigit (c : Char) : Bool := '0' ≤ c && c ≤ '7'

def octToNat (ds : List Char) : Nat :=
  ds.foldl (fun n c => 8 * n + digitVal c) 0

def isBinDigit (c : Char) : Bool := c = '0' || c = '1'

def binToNat (ds : List Char) : Nat :=
  ds.foldl (fun n c => 2 * n + digitVal c) 0

/-- The exact rational value `±(I + F/10^f) · 10^e` of a decimal literal
with integer-part digits value `I`, fraction digits value `F` over `f`
digits, and exponent `e`, built with core rational arithmetic. -/
def decValue (neg : Bool) (intV fracV fracLen : Nat) (e : Int) : ℚ :=
  let a : Int := (intV * 10 ^ fracLen + fracV : Nat)
  let b : Int := if neg then -a else a
  if 0 ≤ e then mkRat (b * 10 ^ e.toNat) (10 ^ fracLen)
  else mkRat b (10 ^ (fracLen + (-e).toNat))

/-- Parse an optional exponent part `[eE][+-]?digits` at the head of the
list; when the part is absent or incomplete nothing is consumed. -/
def parseExponent (cs : List Char) : Int × List Char :=
  match cs with
  | [] => (0, [])
  | c :: cs' =>
    if c = 'e' || c = 'E' then
      let sp : Int × List Char :=
        match cs' with
        | '+' :: t => (1, t)
        | '-' :: t => (-1, t)
        | _ => (1, cs')
      let ds := sp.2.takeWhile Char.isDigit
      if ds = [] then (0, cs)
      else (sp.1 * (digitsToNat ds : Int), sp.2.dropWhile Char.isDigit)
    else (0, cs)

/-- Parse an unsigned decimal literal `digits[.digits][exp]` / `.digits[exp]`
at the head of the list given the sign already read, returning its exact
value and the unconsumed remainder, or `none` when no digit is found. -/
def parseDecimalCore (neg : Bool) (cs : List Char) : Option (ℚ × List Char) :=
  let intDigits := cs.takeWhile Char.isDigit
  let rest1 := cs.dropWhile Char.isDigit
  let fracPair : List Char × List Char :=
    match rest1 with
    | '.' :: cs2 => (cs2.takeWhile Char.isDigit, cs2.dropWhile Char.isDigit)
    | _ => ([], rest1)
  if intDigits = [] ∧ fracPair.1 = [] then none
  else
    let ep := parseExponent fracPair.2
    some (decValue neg (digitsToNat intDigits) (digitsToNat fracPair.1)
            fracPair.1.length ep.1, ep.2)

/-- Parse an optionally signed decimal literal or `Infinity` at the head of
the list. -/
def parseSignedCore (cs : List Char) : Option (JsNum × List Char) :=
  let sp : Bool × List Char :=
    match cs with
    | '+' :: t => (false, t)
    | '-' :: t => (true, t)
    | _ => (false, cs)
  if "Infinity".data.isPrefixOf sp.2 then
    some (.inf sp.1, sp.2.drop 8)
  else
    match parseDecimalCore sp.1 sp.2 with
    | some (q, rest) => some (.val q, rest)
    | none => none

/-- Non-decimal integer literals accepted by JS `Number(string)`:
`0x…`/`0X…`, `0o…`/`0O…`, `0b…`/`0B…` (no sign allowed). `none` means the
input is not of this shape at all. -/
def jsNonDecimal : List Char → Option JsNum
  | '0' :: c :: rest =>
    if c = 'x' || c = 'X' then
      some (if rest ≠ [] ∧ rest.all isHexDigit then .val (mkRat (hexToNat rest) 1) else .nan)
    else if c = 'o' || c = 'O' then
      some (if rest ≠ [] ∧ rest.all isOctDigit then .val (mkRat (octToNat rest) 1) else .nan)
    else if c = 'b' || c = 'B' then
      some (if rest ≠ [] ∧ rest.all isBinDigit then .val (mkRat (binToNat rest) 1) else .nan)
    else none
  | _ => none

/-- JS `Number(string)` coercion (what `isNaN(string)` applies before the
NaN test): trim, empty means `0`, otherwise the whole remaining string
must be one numeric literal. -/
def jsStrToNumber (s : String) : JsNum :=
  let t := (jsTrim s).data
  if t = [] then .val 0
  else
    match jsNonDecimal t with
    | some n => n
    | none =>
      match parseSignedCore t with
      | some (n, []) => n
      | _ => .nan

/-- JS `parseFloat(string)`: skip leading whitespace, read the longest
decimal-literal prefix, `NaN` when there is none. -/
def jsParseFloat (s : String) : JsNum :=
  match parseSignedCore (s.data.dropWhile isJsWs) with
  | some (n, _) => n
  | none => .nan

/-! ## The element tree -/

/-- An element node of the host document tree: tag name, attribute list
(name/value pairs, unique names), child elements. -/
inductive Element where
  | mk (tagName : String) (attrs : List (String × String)) (children : List Element)

def Element.tagName : Element → String
  | .mk t _ _ => t

def Element.attrs : Element → List (String × String)
  | .mk _ a _ => a

def Element.children : Element → List Element
  | .mk _ _ c => c

/-- DOM `element.getAttribute(name)`: the value of the attribute, or null
(`none`) when absent. -/
def getAttribute (e : Element) (name : String) : Option String :=
  (e.attrs.find? (fun p => p.1 = name)).map (fun p => p.2)

/-- All descendants of the elements of a list, in document (pre-)order:
each element followed by its own descendants. -/
def descList : List Element → List Element
  | [] => []
  | Element.mk t a c :: rest => Element.mk t a c :: (descList c ++ descList rest)

/-- DOM `element.getElementsByTagName(name)`: the descendants (self
excluded) with the given tag name, in document order; tag-name matching is
case-sensitive for SVG elements. -/
def getElementsByTagName (e : Element) (name : String) : List Element :=
  (descList e.children).filter (fun d => d.tagName = name)

/-- DOM `document.getElementById(id)`: the first element of the document
(root included) in document order whose `id` attribute is the given
string.  The owning document is modelled by its root element. -/
def getElementById (root : Element) (id : String) : Option Element :=
  (root :: descList root.children).find? (fun d => getAttribute d "id" = some id)

/-! ## flattenShapes -/

/-- `flattenShapes(elements)`: recursively expand `"g"` (group) elements
(case-insensitive tag test) into their children, keep every other element. -/
def flattenShapes : List Element → List Element
  | [] => []
  | Element.mk t a c :: rest =>
    if jsToLower t = "g" then flattenShapes c ++ flattenShapes rest
    else Element.mk t a c :: flattenShapes rest

/-- Modelled from the spec (§8): the count of non-group nodes across all
nesting depths, expanding group nodes only. -/
def countNonGroup : List Element → Nat
  | [] => 0
  | Element.mk t _ c :: rest =>
    (if jsToLower t = "g" then countNonGroup c else 1) + countNonGroup rest

/-! ## parsePoints -/

/-- `parsePoints(points)`: trim, split on whitespace runs, split each token
on `","`, convert each piece with `Number`. -/
def parsePoints (points : String) : List (List JsNum) :=
  (jsSplitWs (jsTrim points)).map (fun p => (jsSplitStr ',' p).map jsStrToNumber)

/-! ## getShapeAttributes -/

/-- A resolved shape-attribute value: `null` for an absent attribute, a
parsed point list for `points`, a number for numeric strings, the raw
string otherwise. -/
inductive AttrValue where
  | null
  | num (n : JsNum)
  | str (s : String)
  | points (ps : List (List JsNum))
  deriving DecidableEq

/-- The result of `getShapeAttributes`: the raw `d` string for `path`
elements, an attribute record for every other tag. -/
inductive ShapeAttrs where
  | pathData (d : Option String)
  | record (fields : List (String × AttrValue))
  deriving DecidableEq

/-- The `attributesMap` table of `getShapeAttributes` (unknown tags get the
empty list). -/
def attributesMap (t : String) : List String :=
  if t = "circle" then ["cx", "cy", "r"]
  else if t = "ellipse" then ["cx", "cy", "rx", "ry"]
  else if t = "rect" then ["x", "y", "width", "height", "rx", "ry"]
  else if t = "line" then ["x1", "y1", "x2", "y2"]
  else if t = "polyline" then ["points"]
  else if t = "polygon" then ["points"]
  else []

/-- The per-attribute conditional of `getShapeAttributes`:
`value !== null ? (attr === "points" ? parsePoints(value) : isNaN(value) ?
value : parseFloat(value)) : null`. -/
def resolveShapeAttr (e : Element) (attr : String) : AttrValue :=
  match getAttribute e attr with
  | none => .null
  | some v =>
    if attr = "points" then .points (parsePoints v)
    else if jsStrToNumber v = .nan then .str v
    else .num (jsParseFloat v)

/-- The `attributes.reduce(...)` record of `getShapeAttributes`. -/
def shapeFieldsOf (e : Element) : List (String × AttrValue) :=
  (attributesMap (jsToLower e.tagName)).foldl
    (fun acc attr => acc ++ [(attr, resolveShapeAttr e attr)]) []

/-- `getShapeAttributes(element)`. -/
def getShapeAttributes (e : Element) : ShapeAttrs :=
  if jsToLower e.tagName = "path" then .pathData (getAttribute e "d")
  else .record (shapeFieldsOf e)

/-! ## parseGradient -/

/-- A gradient stop offset or the literal `||`-default: the raw attribute
string, or the number `0`. -/
inductive StrOrNum where
  | str (s : String)
  | num (q : ℚ)
  deriving DecidableEq

/-- One parsed `<stop>`: `{offset, color}`. -/
structure GradientStop where
  offset : StrOrNum
  color : String
  deriving DecidableEq

/-- The structured gradient record `{type, ...geometryAttrs, stops}`. -/
structure GradientRecord where
  type : String
  geometry : List (String × Option String)
  stops : List GradientStop
  deriving DecidableEq

/-- The `gradientAttributes` table of `parseGradient` (exact tag-name
lookup; unknown tags get the empty list). -/
def gradientAttributesMap (t : String) : List String :=
  if t = "linearGradient" then ["x1", "y1", "x2", "y2"]
  else if t = "radialGradient" then ["cx", "cy", "r", "fx", "fy"]
  else []

/-- The per-stop mapping of `parseGradient`:
`{offset: stop.getAttribute("offset") || 0, color: stop.getAttribute("stop-color") || "#000000"}`
(the `||` defaults also fire on a present-but-empty attribute, which is
falsy). -/
def mkStop (stop : Element) : GradientStop :=
  { offset :=
      match getAttribute stop "offset" with
      | none => .num 0
      | some v => if v = "" then .num 0 else .str v,
    color :=
      match getAttribute stop "stop-color" with
      | none => "#000000"
      | some v => if v = "" then "#000000" else v }

/-- `parseGradient` on a present gradient element. -/
def parseGradientRec (g : Element) : GradientRecord :=
  { type := jsToLower (jsReplaceOnce g.tagName "Gradient"),
    geometry :=
      (gradientAttributesMap g.tagName).foldl
        (fun acc attr => acc ++ [(attr, getAttribute g attr)]) [],
    stops := (getElementsByTagName g "stop").map mkStop }

/-- `parseGradient(gradient)`: null input returns null immediately. -/
def parseGradient : Option Element → Option GradientRecord
  | none => none
  | some g => some (parseGradientRec g)

/-- Modelled from the spec (§4.5): the `type` field as the spec words it,
"the tag name with any trailing `Gradient` suffix removed and
lower-cased". -/
def typeFromTagSpec (t : String) : String :=
  if "Gradient".data.isSuffixOf t.data then
    jsToLower (String.mk (t.data.take (t.data.length - 8)))
  else jsToLower t

/-! ## getStyleAttributes -/

/-- A style-record value: a plain string, JS `undefined` (the value a
colon-less inline segment gets through `Object.fromEntries`), or a
structured gradient record. -/
inductive StyleValue where
  | str (s : String)
  | undef
  | gradient (g : GradientRecord)
  deriving DecidableEq

/-- JS object key test (`hasOwnProperty`) on a record modelled as an
ordered key/value list with unique keys. -/
def hasKey {α : Type} (o : List (String × α)) (k : String) : Bool :=
  o.any (fun p => p.1 = k)

/-- JS object property assignment `o[k] = v`: replace the value in place
when the key exists, append otherwise. -/
def objSet {α : Type} : List (String × α) → String → α → List (String × α)
  | [], k, v => [(k, v)]
  | p :: rest, k, v => if p.1 = k then (k, v) :: rest else p :: objSet rest k v

/-- JS object property read `o[k]`. -/
def objGet {α : Type} (o : List (String × α)) (k : String) : Option α :=
  (o.find? (fun p => p.1 = k)).map (fun p => p.2)

/-- One inline-style segment to an `Object.fromEntries` entry:
`s.split(":").map(part => part.trim())`, key = piece 0, value = piece 1
(JS `undefined` when the segment has no colon; pieces after the second
are dropped by `fromEntries`). -/
def inlinePair (seg : String) : String × StyleValue :=
  match (jsSplitStr ':' seg).map jsTrim with
  | [] => ("", .undef)
  | [k] => (k, .undef)
  | k :: v :: _ => (k, .str v)

/-- The inline-style pass of `getStyleAttributes`: absent or empty `style`
attribute seeds an empty record; otherwise split on `";"`, drop falsy
(empty) segments, build entries, later duplicate keys overwriting earlier
ones. -/
def inlineStyles (e : Element) : List (String × StyleValue) :=
  match getAttribute e "style" with
  | none => []
  | some s =>
    if s = "" then []
    else
      (((jsSplitStr ';' s).filter (fun seg => seg ≠ "")).map inlinePair).foldl
        (fun o kv => objSet o kv.1 kv.2) []

/-- `value.match(/#(.*)\)/)?.[1]`: the text between the first `#` that has
a `)` somewhere after it and the last following `)` (greedy `.*`); `none`
when the pattern does not match. -/
def extractGradientId (v : String) : Option String :=
  match v.data.dropWhile (fun c => c ≠ '#') with
  | [] => none
  | _ :: rest =>
    if rest.contains ')' then
      some (String.mk (((rest.reverse.dropWhile (fun c => c ≠ ')')).drop 1).reverse))
    else none

/-- The allow-list of presentation attributes of `getStyleAttributes`. -/
def styleAttrList : List String :=
  ["fill", "stroke", "stroke-width", "opacity", "transform", "clip-path"]

/-- One iteration of the presentation-attribute loop of
`getStyleAttributes`: skip falsy or `"none"` values; resolve `url(...)`
values through `getElementById` and `parseGradient`, overwriting any
inline value on success and doing nothing on failure; set a plain value
only when the key is not already present. -/
def processStyleAttr (doc e : Element) (styles : List (String × StyleValue))
    (attr : String) : List (String × StyleValue) :=
  match getAttribute e attr with
  | none => styles
  | some v =>
    if v = "" || v = "none" then styles
    else if jsStartsWith v "url(" then
      match extractGradientId v with
      | none => styles
      | some id =>
        if id = "" then styles
        else
          match getElementById doc id with
          | none => styles
          | some g => objSet styles attr (.gradient (parseGradientRec g))
    else if hasKey styles attr then styles
    else objSet styles attr (.str v)

/-- `getStyleAttributes(element)`: the inline-style record, then the
presentation-attribute loop.  `doc` is the root of the owning document
(`element.ownerDocument`). -/
def getStyleAttributes (doc e : Element) : List (String × StyleValue) :=
  styleAttrList.foldl (processStyleAttr doc e) (inlineStyles e)


/-! ## Helper lemmas -/

theorem objGet_cons {α : Type} (p : String × α) (rest : List (String × α)) (k : String) :
    objGet (p :: rest) k = if p.1 = k then some p.2 else objGet rest k := by
  by_cases h : p.1 = k <;> simp [objGet, List.find?, h]

theorem hasKey_cons {α : Type} (p : String × α) (rest : List (String × α)) (k : String) :
    hasKey (p :: rest) k = (decide (p.1 = k) || hasKey rest k) := by
  simp [hasKey]

theorem objGet_objSet_self {α : Type} (o : List (String × α)) (k : String) (v : α) :
    objGet (objSet o k v) k = some v := by
  induction o with
  | nil => simp [objSet, objGet_cons]
  | cons p rest ih =>
    by_cases h : p.1 = k
    · simp [objSet, h, objGet_cons]
    · simp [objSet, h, objGet_cons, ih]

theorem objGet_objSet_ne {α : Type} (o : List (String × α)) (k : String) (v : α)
    (k' : String) (h : k' ≠ k) : objGet (objSet o k v) k' = objGet o k' := by
  induction o with
  | nil => simp [objSet, objGet_cons, objGet, Ne.symm h]
  | cons p rest ih =>
    by_cases hp : p.1 = k
    · subst hp
      simp [objSet, objGet_cons, Ne.symm h, fun hh : p.1 = k' => h hh.symm]
    · simp only [objSet, if_neg hp, objGet_cons, ih]

theorem hasKey_objSet {α : Type} (o : List (String × α)) (k : String) (v : α)
    (k' : String) : hasKey (objSet o k v) k' = (hasKey o k' || decide (k = k')) := by
  induction o with
  | nil => simp [objSet, hasKey_cons, hasKey]
  | cons p rest ih =>
    by_cases hp : p.1 = k
    · subst hp
      by_cases hk : p.1 = k' <;> simp [objSet, hasKey_cons, hk]
    · simp only [objSet, if_neg hp, hasKey_cons, ih, Bool.or_assoc]

theorem processStyleAttr_objGet_ne (doc e : Element) (styles : List (String × StyleValue))
    (a k : String) (h : a ≠ k) :
    objGet (processStyleAttr doc e styles a) k = objGet styles k := by
  unfold processStyleAttr
  cases getAttribute e a with
  | none => rfl
  | some v =>
    dsimp only
    repeat' split
    all_goals first
      | rfl
      | exact objGet_objSet_ne styles a _ k (Ne.symm h)

theorem processStyleAttr_hasKey_ne (doc e : Element) (styles : List (String × StyleValue))
    (a k : String) (h : a ≠ k) :
    hasKey (processStyleAttr doc e styles a) k = hasKey styles k := by
  unfold processStyleAttr
  cases getAttribute e a with
  | none => rfl
  | some v =>
    dsimp only
    repeat' split
    all_goals first
      | rfl
      | rw [hasKey_objSet]
        simp [h]

theorem foldPSA_objGet_notMem (doc e : Element) (L : List String)
    (styles : List (String × StyleValue)) (k : String) (h : k ∉ L) :
    objGet (L.foldl (processStyleAttr doc e) styles) k = objGet styles k := by
  induction L generalizing styles with
  | nil => rfl
  | cons a L ih =>
    have ha : a ≠ k := fun hh => h (hh ▸ List.mem_cons_self a L)
    rw [List.foldl_cons, ih _ (fun hm => h (List.mem_cons_of_mem _ hm)),
      processStyleAttr_objGet_ne doc e styles a k ha]

theorem foldPSA_hasKey_notMem (doc e : Element) (L : List String)
    (styles : List (String × StyleValue)) (k : String) (h : k ∉ L) :
    hasKey (L.foldl (processStyleAttr doc e) styles) k = hasKey styles k := by
  induction L generalizing styles with
  | nil => rfl
  | cons a L ih =>
    have ha : a ≠ k := fun hh => h (hh ▸ List.mem_cons_self a L)
    rw [List.foldl_cons, ih _ (fun hm => h (List.mem_cons_of_mem _ hm)),
      processStyleAttr_hasKey_ne doc e styles a k ha]

/-- Splitting the presentation-attribute fold of `getStyleAttributes` at a
member `attr` of the allow-list: the final value at `attr` is what the
iteration for `attr` wrote, and the record that iteration saw agrees with
the inline record at `attr`. -/
theorem styleFoldSplit (doc e : Element) (attr : String) (hattr : attr ∈ styleAttrList) :
    ∃ S : List (String × StyleValue),
      objGet (getStyleAttributes doc e) attr = objGet (processStyleAttr doc e S attr) attr
    ∧ hasKey S attr = hasKey (inlineStyles e) attr
    ∧ objGet S attr = objGet (inlineStyles e) attr := by
  obtain ⟨l1, l2, hL⟩ := List.append_of_mem hattr
  have hnd : styleAttrList.Nodup := by decide
  rw [hL, List.nodup_append] at hnd
  have h1 : attr ∉ l1 := fun hm => hnd.2.2 hm (List.mem_cons_self attr l2)
  have h2 : attr ∉ l2 := (List.nodup_cons.mp hnd.2.1).1
  refine ⟨l1.foldl (processStyleAttr doc e) (inlineStyles e), ?_, ?_, ?_⟩
  · unfold getStyleAttributes
    rw [hL, List.foldl_append, List.foldl_cons]
    exact foldPSA_objGet_notMem doc e l2 _ attr h2
  · exact foldPSA_hasKey_notMem doc e l1 _ attr h1
  · exact foldPSA_objGet_notMem doc e l1 _ attr h1

theorem v_not_empty_none (v : String) (h : jsStartsWith v "url(" = true) :
    ¬(v = "" ∨ v = "none") := by
  rintro (rfl | rfl) <;> exact absurd h (by decide)

theorem processStyleAttr_url_found (doc e : Element) (styles : List (String × StyleValue))
    (attr v id : String) (g : Element)
    (hv : getAttribute e attr = some v) (hurl : jsStartsWith v "url(" = true)
    (hid : extractGradientId v = some id) (hne : id ≠ "")
    (hg : getElementById doc id = some g) :
    processStyleAttr doc e styles attr = objSet styles attr (.gradient (parseGradientRec g)) := by
  have hvn := not_or.mp (v_not_empty_none v hurl)
  unfold processStyleAttr
  rw [hv]
  simp only [show (v = "" || v = "none") = false by simp [hvn.1, hvn.2],
    Bool.false_eq_true, if_false, hurl, if_true, hid, hg, if_neg hne]

theorem processStyleAttr_url_fail (doc e : Element) (styles : List (String × StyleValue))
    (attr v : String)
    (hv : getAttribute e attr = some v) (hurl : jsStartsWith v "url(" = true)
    (hfail : extractGradientId v = none ∨
      ∃ id, extractGradientId v = some id ∧ (id = "" ∨ getElementById doc id = none)) :
    processStyleAttr doc e styles attr = styles := by
  have hvn := not_or.mp (v_not_empty_none v hurl)
  unfold processStyleAttr
  rw [hv]
  simp only [show (v = "" || v = "none") = false by simp [hvn.1, hvn.2],
    Bool.false_eq_true, if_false, hurl, if_true]
  rcases hfail with hnone | ⟨id, hid, hrest⟩
  · rw [hnone]
  · rw [hid]
    dsimp only
    rcases hrest with rfl | hno
    · rw [if_pos rfl]
    · by_cases hz : id = ""
      · rw [if_pos hz]
      · rw [if_neg hz, hno]

theorem processStyleAttr_plain (doc e : Element) (styles : List (String × StyleValue))
    (attr v : String)
    (hv : getAttribute e attr = some v) (hvn : ¬(v = "" ∨ v = "none"))
    (hurl : jsStartsWith v "url(" = false) :
    processStyleAttr doc e styles attr =
      if hasKey styles attr then styles else objSet styles attr (.str v) := by
  have hvn' := not_or.mp hvn
  unfold processStyleAttr
  rw [hv]
  simp only [show (v = "" || v = "none") = false by simp [hvn'.1, hvn'.2],
    Bool.false_eq_true, if_false, hurl]

theorem foldl_pairAppend {α β : Type} (f : α → β) (L : List α) (acc : List (α × β)) :
    L.foldl (fun acc a => acc ++ [(a, f a)]) acc = acc ++ L.map (fun a => (a, f a)) := by
  induction L generalizing acc with
  | nil => simp
  | cons a L ih => simp [List.foldl_cons, ih]

theorem objGet_pairMap {α : Type} (f : String → α) (L : List String) (k : String)
    (h : k ∈ L) : objGet (L.map (fun a => (a, f a))) k = some (f k) := by
  induction L with
  | nil => cases h
  | cons a L ih =>
    by_cases ha : a = k
    · subst ha
      simp [objGet_cons]
    · rcases List.mem_cons.mp h with rfl | hm
      · exact absurd rfl ha
      · simp [objGet_cons, ha, ih hm]

theorem shapeFieldsOf_objGet (e : Element) (attr : String)
    (h : attr ∈ attributesMap (jsToLower e.tagName)) :
    objGet (shapeFieldsOf e) attr = some (resolveShapeAttr e attr) := by
  unfold shapeFieldsOf
  rw [foldl_pairAppend, List.nil_append]
  exact objGet_pairMap _ _ _ h

theorem shapeFieldsOf_keys (e : Element) :
    (shapeFieldsOf e).map Prod.fst = attributesMap (jsToLower e.tagName) := by
  unfold shapeFieldsOf
  rw [foldl_pairAppend, List.nil_append, List.map_map]
  have hc : (Prod.fst ∘ fun a => (a, resolveShapeAttr e a)) = id := rfl
  rw [hc, List.map_id]

theorem flattenShapes_no_group (es : List Element) :
    ∀ e ∈ flattenShapes es, jsToLower e.tagName ≠ "g" := by
  induction es using flattenShapes.induct with
  | case1 =>
    intro e he
    simp only [flattenShapes] at he
    cases he
  | case2 t a c rest hg ih1 ih2 =>
    intro e he
    simp only [flattenShapes, if_pos hg] at he
    rcases List.mem_append.mp he with hm | hm
    · exact ih1 e hm
    · exact ih2 e hm
  | case3 t a c rest hg ih =>
    intro e he
    simp only [flattenShapes, if_neg hg] at he
    rcases List.mem_cons.mp he with rfl | hm
    · simpa [Element.tagName] using hg
    · exact ih e hm

theorem flattenShapes_length (es : List Element) :
    (flattenShapes es).length = countNonGroup es := by
  induction es using flattenShapes.induct with
  | case1 => simp [flattenShapes, countNonGroup]
  | case2 t a c rest hg ih1 ih2 =>
    simp [flattenShapes, countNonGroup, if_pos hg, ih1, ih2]
  | case3 t a c rest hg ih =>
    simp only [flattenShapes, if_neg hg, List.length_cons, countNonGroup, ih]
    omega

theorem splitOnChar_ne_nil (sep : Char) (cs : List Char) : splitOnChar sep cs ≠ [] := by
  cases cs with
  | nil => exact List.cons_ne_nil _ _
  | cons c cs =>
    unfold splitOnChar
    by_cases h : c = sep
    · rw [if_pos h]
      exact List.cons_ne_nil _ _
    · rw [if_neg h]
      rcases hsp : splitOnChar sep cs with _ | ⟨t, ts⟩
      · exact List.cons_ne_nil _ _
      · exact List.cons_ne_nil _ _

theorem splitOnChar_length (sep : Char) (cs : List Char) :
    (splitOnChar sep cs).length = cs.count sep + 1 := by
  induction cs with
  | nil => simp [splitOnChar]
  | cons c cs ih =>
    unfold splitOnChar
    by_cases h : c = sep
    · subst h
      simp [List.count_cons_self, ih]
    · rw [if_neg h]
      rcases hsp : splitOnChar sep cs with _ | ⟨t, ts⟩
      · exact absurd hsp (splitOnChar_ne_nil sep cs)
      · rw [hsp] at ih
        simp only [List.length_cons] at ih ⊢
        rw [List.count_cons_of_ne (fun hh => h hh.symm)]
        exact ih

theorem jsTrim_allWs (s : String) (h : s.data.all isJsWs = true) : jsTrim s = "" := by
  unfold jsTrim
  have h1 : s.data.dropWhile isJsWs = [] := by
    rw [List.dropWhile_eq_nil_iff]
    intro x hx
    exact List.all_eq_true.mp h x hx
  rw [h1]
  rfl

theorem hasKey_processStyleAttr_sub (doc e : Element) (styles : List (String × StyleValue))
    (a k : String) (h : hasKey (processStyleAttr doc e styles a) k = true) :
    hasKey styles k = true ∨ k = a := by
  by_cases hak : a = k
  · exact Or.inr hak.symm
  · rw [processStyleAttr_hasKey_ne doc e styles a k hak] at h
    exact Or.inl h

theorem hasKey_foldPSA_sub (doc e : Element) (L : List String)
    (styles : List (String × StyleValue)) (k : String)
    (h : hasKey (L.foldl (processStyleAttr doc e) styles) k = true) :
    hasKey styles k = true ∨ k ∈ L := by
  induction L generalizing styles with
  | nil => exact Or.inl h
  | cons a L ih =>
    rw [List.foldl_cons] at h
    rcases ih _ h with h' | h'
    · rcases hasKey_processStyleAttr_sub doc e styles a k h' with h'' | h''
      · exact Or.inl h''
      · exact Or.inr (h'' ▸ List.mem_cons_self a L)
    · exact Or.inr (List.mem_cons_of_mem a h')

/-! ## Concrete example elements -/

def exCircleA : Element := .mk "circle" [] []

def exRectB : Element := .mk "rect" [] []

def exLineC : Element := .mk "line" [] []

def exPathD : Element := .mk "path" [] []

def exGroup : Element := .mk "G" [] [exRectB, exLineC]

def exCircle : Element := .mk "circle" [("cx", "5"), ("cy", "10"), ("r", "2.5")] []

def exCircleWs : Element := .mk "circle" [("cx", " 5 ")] []

def exMissing : Element := .mk "circle" [("cy", "1")] []

def exStyled : Element := .mk "rect" [("style", "fill:red;stroke:blue"), ("fill", "green")] []

def exColonSeg : Element := .mk "rect" [("style", "fill:a:b")] []

def exLastWins : Element := .mk "rect" [("style", "fill:red;fill:green")] []

def exStop1 : Element := .mk "stop" [("offset", "0")] []

def exStop2 : Element := .mk "stop" [("stop-color", "#abc")] []

def exGradient : Element := .mk "linearGradient" [("id", "g1")] [.mk "a" [] [exStop1], exStop2]

def exUrlElem : Element := .mk "rect" [("fill", "url(#g1)"), ("style", "fill:red")] []

def exDoc : Element := .mk "svg" [] [.mk "defs" [] [exGradient], exUrlElem]

def exRadial : Element := .mk "radialGradient" [("cx", "5")] [.mk "a" [] [.mk "stop" [] []]]

/-! ## The claims -/

/-- C1: in `getStyleAttributes`, for an allow-listed presentation attribute
whose value starts with a `url(` reference: when an id is extracted and it
resolves in the owning document, the structured gradient record is stored
under that property name even when inline style already set the property;
when the lookup fails (no id extracted, empty id, or no element found),
the merged record agrees with the inline record at that property, leaving
any inline value untouched. -/
theorem C1_gradient_precedence (doc e : Element) (attr v : String)
    (hattr : attr ∈ styleAttrList) (hv : getAttribute e attr = some v)
    (hurl : jsStartsWith v "url(" = true) :
    (∀ id g, extractGradientId v = some id → id ≠ "" → getElementById doc id = some g →
       objGet (getStyleAttributes doc e) attr = some (.gradient (parseGradientRec g)))
  ∧ ((extractGradientId v = none ∨
      ∃ id, extractGradientId v = some id ∧ (id = "" ∨ getElementById doc id = none)) →
       objGet (getStyleAttributes doc e) attr = objGet (inlineStyles e) attr) := by
  obtain ⟨S, hS1, hS2, hS3⟩ := styleFoldSplit doc e attr hattr
  constructor
  · intro id g hid hne hg
    rw [hS1, processStyleAttr_url_found doc e S attr v id g hv hurl hid hne hg]
    exact objGet_objSet_self S attr _
  · intro hfail
    rw [hS1, processStyleAttr_url_fail doc e S attr v hv hurl hfail]
    exact hS3

theorem C1_gradient_precedence_witness :
    objGet (getStyleAttributes exDoc exUrlElem) "fill" =
      some (.gradient (parseGradientRec exGradient)) := by
  have hd : descList exDoc.children =
      [Element.mk "defs" [] [exGradient], exGradient, Element.mk "a" [] [exStop1],
        exStop1, exStop2, exUrlElem] := by
    simp [descList, exDoc, exGradient, exStop1, exStop2, exUrlElem, Element.children]
  have hg : getElementById exDoc "g1" = some exGradient := by
    simp only [getElementById, hd]
    rfl
  exact (C1_gradient_precedence exDoc exUrlElem "fill" "url(#g1)" (by decide) rfl rfl).1
    "g1" exGradient rfl (by decide) hg

/-- C2: no exported operation raises on conforming input; malformed input
degrades: an absent shape attribute resolves to null, a non-numeric
coordinate piece becomes the NaN sentinel, a url() reference that does not
resolve leaves the style record at the inline value, an unknown shape tag
gives an empty record, an unknown gradient tag gives empty geometry, and
`parseGradient` of an absent element is null. -/
theorem C2_degrade_never_throw (doc e : Element) (attr v s t : String) :
    (attr ∈ attributesMap (jsToLower e.tagName) → getAttribute e attr = none →
       objGet (shapeFieldsOf e) attr = some .null)
  ∧ (∀ i tok, (jsSplitWs (jsTrim s)).get? i = some tok →
       (parsePoints s).get? i = some ((jsSplitStr ',' tok).map jsStrToNumber))
  ∧ (∀ j p, (jsSplitStr ',' t).get? j = some p → jsStrToNumber p = .nan →
       ((jsSplitStr ',' t).map jsStrToNumber).get? j = some .nan)
  ∧ (attr ∈ styleAttrList → getAttribute e attr = some v → jsStartsWith v "url(" = true →
       (extractGradientId v = none ∨
        ∃ id, extractGradientId v = some id ∧ (id = "" ∨ getElementById doc id = none)) →
       objGet (getStyleAttributes doc e) attr = objGet (inlineStyles e) attr)
  ∧ (jsToLower e.tagName ≠ "path" → attributesMap (jsToLower e.tagName) = [] →
       getShapeAttributes e = .record [])
  ∧ (gradientAttributesMap e.tagName = [] → (parseGradientRec e).geometry = [])
  ∧ parseGradient none = none := by
  refine ⟨?_, ?_, ?_, ?_, ?_, ?_, rfl⟩
  · intro hmem hnone
    rw [shapeFieldsOf_objGet e attr hmem]
    simp [resolveShapeAttr, hnone]
  · intro i tok h
    unfold parsePoints
    rw [List.get?_map, h]
    rfl
  · intro j p h hnan
    rw [List.get?_map, h]
    simp [hnan]
  · intro hattr hv hurl hfail
    obtain ⟨S, hS1, hS2, hS3⟩ := styleFoldSplit doc e attr hattr
    rw [hS1, processStyleAttr_url_fail doc e S attr v hv hurl hfail]
    exact hS3
  · intro hp hm
    unfold getShapeAttributes shapeFieldsOf
    rw [if_neg hp, hm]
    rfl
  · intro hm
    simp [parseGradientRec, hm]

theorem C2_degrade_never_throw_witness :
    objGet (shapeFieldsOf exMissing) "cx" = some AttrValue.null :=
  (C2_degrade_never_throw exMissing exMissing "cx" "" "" "").1 (by decide) rfl

/-- C3: `flattenShapes` emits no node whose tag is case-insensitively "g",
its length is the recursive count of non-group nodes across all nesting
depths, empty input yields empty output, and encounter order is preserved
as in flattening [A, G(B,C), D] to [A, B, C, D]. -/
theorem C3_flattenShapes (es : List Element) :
    (∀ e ∈ flattenShapes es, jsToLower e.tagName ≠ "g")
  ∧ (flattenShapes es).length = countNonGroup es
  ∧ flattenShapes [] = []
  ∧ flattenShapes [exCircleA, exGroup, exPathD] = [exCircleA, exRectB, exLineC, exPathD] := by
  refine ⟨flattenShapes_no_group es, flattenShapes_length es, by simp [flattenShapes], ?_⟩
  simp [flattenShapes, exCircleA, exGroup, exRectB, exLineC, exPathD, jsToLower]

theorem C3_flattenShapes_witness : jsToLower exCircleA.tagName ≠ "g" := by
  have hEq : flattenShapes [exCircleA] = [exCircleA] := by
    simp [flattenShapes, exCircleA, jsToLower]
  exact (C3_flattenShapes [exCircleA]).1 exCircleA (by rw [hEq]; exact List.mem_cons_self _ _)

/-- C4: for a tag in the shape table the record key list is exactly the
fixed attribute list for that tag; tag "path" instead returns the raw `d`
attribute value (string, or null when absent), not a record; any other tag
yields the empty record. -/
theorem C4_shape_keys (e : Element) :
    (jsToLower e.tagName = "path" → getShapeAttributes e = .pathData (getAttribute e "d"))
  ∧ (jsToLower e.tagName ≠ "path" →
       getShapeAttributes e = .record (shapeFieldsOf e)
     ∧ (shapeFieldsOf e).map Prod.fst = attributesMap (jsToLower e.tagName))
  ∧ (jsToLower e.tagName ≠ "path" → attributesMap (jsToLower e.tagName) = [] →
       getShapeAttributes e = .record []) := by
  refine ⟨?_, ?_, ?_⟩
  · intro hp
    unfold getShapeAttributes
    rw [if_pos hp]
  · intro hp
    refine ⟨?_, shapeFieldsOf_keys e⟩
    unfold getShapeAttributes
    rw [if_neg hp]
  · intro hp hm
    unfold getShapeAttributes shapeFieldsOf
    rw [if_neg hp, hm]
    rfl

theorem C4_shape_keys_witness :
    getShapeAttributes exCircle = ShapeAttrs.record (shapeFieldsOf exCircle)
  ∧ (shapeFieldsOf exCircle).map Prod.fst = attributesMap (jsToLower exCircle.tagName) :=
  (C4_shape_keys exCircle).2.1 (by decide)

/-- C5: per-attribute value resolution of `getShapeAttributes` for a listed
attribute of a non-path shape: absent attribute resolves to null; a
present "points" attribute resolves through `parsePoints`; a present value
failing `Number` coercion stays the raw string; a value passing the
coercion (whitespace allowed) becomes the `parseFloat` number; the example
circle with cx="5" cy="10" r="2.5" yields the all-numeric record. -/
theorem C5_shape_values (e : Element) (attr : String)
    (hpath : jsToLower e.tagName ≠ "path")
    (hmem : attr ∈ attributesMap (jsToLower e.tagName)) :
    getShapeAttributes e = .record (shapeFieldsOf e)
  ∧ objGet (shapeFieldsOf e) attr = some (resolveShapeAttr e attr)
  ∧ (getAttribute e attr = none → resolveShapeAttr e attr = .null)
  ∧ (∀ v, getAttribute e attr = some v → attr = "points" →
       resolveShapeAttr e attr = .points (parsePoints v))
  ∧ (∀ v, getAttribute e attr = some v → attr ≠ "points" → jsStrToNumber v = .nan →
       resolveShapeAttr e attr = .str v)
  ∧ (∀ v, getAttribute e attr = some v → attr ≠ "points" → jsStrToNumber v ≠ .nan →
       resolveShapeAttr e attr = .num (jsParseFloat v))
  ∧ getShapeAttributes exCircle =
      .record [("cx", .num (.val 5)), ("cy", .num (.val 10)), ("r", .num (.val (mkRat 5 2)))]
  ∧ resolveShapeAttr exCircleWs "cx" = .num (.val 5) := by
  refine ⟨?_, shapeFieldsOf_objGet e attr hmem, ?_, ?_, ?_, ?_, by decide, by decide⟩
  · unfold getShapeAttributes
    rw [if_neg hpath]
  · intro h
    simp [resolveShapeAttr, h]
  · intro v h hp
    subst hp
    simp [resolveShapeAttr, h]
  · intro v h hp hnan
    simp [resolveShapeAttr, h, hp, hnan]
  · intro v h hp hnan
    simp [resolveShapeAttr, h, hp, hnan]

theorem C5_shape_values_witness :
    objGet (shapeFieldsOf exCircle) "cx" = some (resolveShapeAttr exCircle "cx") :=
  (C5_shape_values exCircle "cx" (by decide) (by decide)).2.1

/-- C6: `parsePoints` trims, splits on whitespace runs, splits each token
on "," and converts each piece with `Number`; the example string parses to
[[0,0],[10,10],[20,0]]; a failing conversion leaves the NaN sentinel in
place (it is whatever `Number` returns, per the defining equation); and a
token with a different comma count yields an inner sequence whose length
is comma count + 1. -/
theorem C6_parsePoints (s : String) :
    parsePoints s = (jsSplitWs (jsTrim s)).map (fun t => (jsSplitStr ',' t).map jsStrToNumber)
  ∧ (∀ t ∈ jsSplitWs (jsTrim s),
       ((jsSplitStr ',' t).map jsStrToNumber).length = t.data.count ',' + 1)
  ∧ parsePoints "0,0 10,10 20,0" =
      [[.val 0, .val 0], [.val 10, .val 10], [.val 20, .val 0]]
  ∧ parsePoints "a,b 7" = [[.nan, .nan], [.val 7]] := by
  refine ⟨rfl, ?_, by decide, by decide⟩
  intro t _
  simp [jsSplitStr, splitOnChar_length]

theorem C6_parsePoints_witness :
    ((jsSplitStr ',' "10,10").map jsStrToNumber).length = "10,10".data.count ',' + 1 :=
  (C6_parsePoints "0,0 10,10 20,0").2.1 "10,10" (by decide)

/-- C7: in `getStyleAttributes`, an allow-listed presentation attribute
with a plain value (non-empty, not "none", not a url() reference) sets the
property only when the inline-style pass did not already set it; the
example with style="fill:red;stroke:blue" and fill="green" yields
fill:red, stroke:blue; and every key of the output comes from the inline
record or the allow-list. -/
theorem C7_inline_wins (doc e : Element) (attr v : String)
    (hattr : attr ∈ styleAttrList) (hv : getAttribute e attr = some v)
    (hvn : ¬(v = "" ∨ v = "none")) (hurl : jsStartsWith v "url(" = false) :
    objGet (getStyleAttributes doc e) attr =
      (if hasKey (inlineStyles e) attr then objGet (inlineStyles e) attr
       else some (.str v))
  ∧ (∀ k, hasKey (getStyleAttributes doc e) k = true →
       hasKey (inlineStyles e) k = true ∨ k ∈ styleAttrList)
  ∧ getStyleAttributes exStyled exStyled = [("fill", .str "red"), ("stroke", .str "blue")] := by
  obtain ⟨S, hS1, hS2, hS3⟩ := styleFoldSplit doc e attr hattr
  refine ⟨?_, ?_, by decide⟩
  · rw [hS1, processStyleAttr_plain doc e S attr v hv hvn hurl]
    by_cases hk : hasKey (inlineStyles e) attr = true
    · rw [if_pos (hS2.trans hk), if_pos hk]
      exact hS3
    · rw [if_neg (fun hh => hk (hS2.symm.trans hh)), if_neg hk]
      exact objGet_objSet_self S attr _
  · intro k hk
    exact hasKey_foldPSA_sub doc e styleAttrList (inlineStyles e) k hk

theorem C7_inline_wins_witness :
    objGet (getStyleAttributes exStyled exStyled) "fill" =
      (if hasKey (inlineStyles exStyled) "fill" then objGet (inlineStyles exStyled) "fill"
       else some (.str "green")) :=
  (C7_inline_wins exStyled exStyled "fill" "green" (by decide) rfl (by decide) (by decide)).1

/-- C8 counterexample: the inline pass does not split a segment on the
first ":" only — with style="fill:a:b" the code seeds fill with "a" (the
piece between the first two colons), not "a:b" as the claim predicts. -/
theorem C8_first_colon_cex :
    objGet (getStyleAttributes exColonSeg exColonSeg) "fill" = some (.str "a")
  ∧ objGet (getStyleAttributes exColonSeg exColonSeg) "fill" ≠ some (.str "a:b") := by
  constructor
  · decide
  · decide

/-- C8 (amended): for a non-empty style attribute the inline pass splits on
";", discards empty segments, splits each remaining segment on every ":"
into trimmed pieces and seeds the record with (piece 0, piece 1) — text
after a second colon is discarded, a colon-less segment seeds the JS
undefined value — later duplicate property names overwriting earlier ones
(last-wins). -/
theorem C8_inline_parsing (e : Element) (s seg k vv : String) (rest : List String)
    (hs : getAttribute e "style" = some s) (hne : s ≠ "") :
    inlineStyles e =
      (((jsSplitStr ';' s).filter (fun seg => seg ≠ "")).map inlinePair).foldl
        (fun o kv => objSet o kv.1 kv.2) []
  ∧ ((jsSplitStr ':' seg).map jsTrim = k :: vv :: rest → inlinePair seg = (k, .str vv))
  ∧ ((jsSplitStr ':' seg).map jsTrim = [k] → inlinePair seg = (k, .undef))
  ∧ inlineStyles exLastWins = [("fill", .str "green")]
  ∧ inlineStyles exColonSeg = [("fill", .str "a")] := by
  refine ⟨?_, ?_, ?_, by decide, by decide⟩
  · unfold inlineStyles
    rw [hs]
    dsimp only
    rw [if_neg hne]
  · intro h
    unfold inlinePair
    rw [h]
  · intro h
    unfold inlinePair
    rw [h]

theorem C8_inline_parsing_witness :
    inlineStyles exColonSeg =
      (((jsSplitStr ';' "fill:a:b").filter (fun seg => seg ≠ "")).map inlinePair).foldl
        (fun o kv => objSet o kv.1 kv.2) [] :=
  (C8_inline_parsing exColonSeg "fill:a:b" "" "" "" [] rfl (by decide)).1

/-- C9: `parseGradient` of a gradient element returns the record whose
stops are all `stop` descendants (any depth, document order) mapped to
offset/color with defaults 0 and "#000000" when absent, an element with no
stop descendants yields stops = [], the type field is the tag name with
the trailing "Gradient" suffix removed and lower-cased, and an absent
input returns null. -/
theorem C9_parseGradient (e : Element)
    (htag : e.tagName = "linearGradient" ∨ e.tagName = "radialGradient") :
    parseGradient none = none
  ∧ parseGradient (some e) = some (parseGradientRec e)
  ∧ (parseGradientRec e).stops = (getElementsByTagName e "stop").map mkStop
  ∧ (getElementsByTagName e "stop" = [] → (parseGradientRec e).stops = [])
  ∧ (∀ st ∈ getElementsByTagName e "stop",
       (getAttribute st "offset" = none → (mkStop st).offset = .num 0)
     ∧ (getAttribute st "stop-color" = none → (mkStop st).color = "#000000"))
  ∧ (parseGradientRec e).type = typeFromTagSpec e.tagName := by
  refine ⟨rfl, rfl, rfl, ?_, ?_, ?_⟩
  · intro h
    simp [parseGradientRec, h]
  · intro st _
    constructor <;> intro h <;> simp [mkStop, h]
  · rcases htag with h | h <;>
      rw [show (parseGradientRec e).type = jsToLower (jsReplaceOnce e.tagName "Gradient")
            from rfl, h] <;>
      decide

theorem C9_parseGradient_witness :
    (parseGradientRec exRadial).stops = (getElementsByTagName exRadial "stop").map mkStop :=
  (C9_parseGradient exRadial (Or.inr rfl)).2.2.1

/-- C10: `parsePoints` of an empty or whitespace-only string is not the
empty sequence: it is [[0]], because splitting the trimmed empty string on
whitespace yields one empty token and `Number("")` is 0. -/
theorem C10_parsePoints_empty (s : String) (h : s.data.all isJsWs = true) :
    parsePoints s = [[.val 0]] ∧ parsePoints s ≠ [] := by
  have ht : jsTrim s = "" := jsTrim_allWs s h
  unfold parsePoints
  rw [ht]
  exact ⟨by decide, by decide⟩

theorem C10_parsePoints_empty_witness :
    parsePoints " " = [[JsNum.val 0]] ∧ parsePoints " " ≠ [] :=
  C10_parsePoints_empty " " (by decide)
